import Mathlib

/-!
Verification of the vigil log aggregator (two source variants:
`vigil.py` and `src/vigil/main.py`) against its specification.

Strings are modelled as lists of unicode code points (`List Char`),
matching Python `str` semantics on which the source operates; where the
content of a string is irrelevant, `String` is kept.  Each definition is a
shallow embedding of the correspondingly named Python function.
-/

namespace Vigil

/-! ## Sanitizer: `VigilServer.clean_ansi_codes` (main.py lines 60-62)

The source substitutes every non-overlapping, left-to-right match of the
regular expression `\x1B(?:[@-Z\\-_]|\[...)` by the empty string (the CSI
branch `\[` is followed by `[0-?]*`, a class of 0x20-0x2F, and `[@-~]`).
The character class `[@-Z\\-_]` covers code points 0x40-0x5A and
0x5C-0x5F; the CSI branch is `[` followed by parameter bytes 0x30-0x3F,
then intermediate bytes 0x20-0x2F, then one final byte 0x40-0x7E.  Since
the three CSI byte classes are pairwise disjoint, the greedy match never
backtracks, so the scan below is exactly the regex engine's behaviour. -/

def escChar : Char := Char.ofNat 27

def isFe (c : Char) : Bool :=
  (0x40 ≤ c.toNat && c.toNat ≤ 0x5A) || (0x5C ≤ c.toNat && c.toNat ≤ 0x5F)

def isParamByte (c : Char) : Bool := 0x30 ≤ c.toNat && c.toNat ≤ 0x3F

def isInterByte (c : Char) : Bool := 0x20 ≤ c.toNat && c.toNat ≤ 0x2F

def isFinalByte (c : Char) : Bool := 0x40 ≤ c.toNat && c.toNat ≤ 0x7E

/-- Attempt to match the part of the regex after the initial `\x1B` at the
head of `l`; on success return the rest of the input after the match. -/
def matchEsc : List Char → Option (List Char)
  | [] => none
  | c :: rest =>
    if isFe c then some rest
    else if c = '[' then
      match (rest.dropWhile isParamByte).dropWhile isInterByte with
      | [] => none
      | f :: r => if isFinalByte f then some r else none
    else none

/-- The scan performed by `re.sub(..., '')`: at each position, if the
pattern matches, drop the matched text and continue after it; otherwise
keep the character and continue at the next position.  (Matches can only
start at `\x1B` since the pattern's first character is `\x1B`.) -/
def clean_ansi_codes : List Char → List Char
  | [] => []
  | c :: rest =>
    if c = escChar then
      match h : matchEsc rest with
      | some r => clean_ansi_codes r
      | none => c :: clean_ansi_codes rest
    else c :: clean_ansi_codes rest
termination_by l => l.length
decreasing_by
  · rename_i rest hcesc
    have hdw : ∀ (p : Char → Bool) (L : List Char), (L.dropWhile p).length ≤ L.length := by
      intro p L
      induction L with
      | nil => simp
      | cons a as ih =>
        simp only [List.dropWhile]
        cases hp : p a
        · simp
        · simpa using Nat.le_succ_of_le ih
    have hle : r.length ≤ rest.length := by
      cases rest with
      | nil => simp [matchEsc] at h
      | cons c2 rest2 =>
        simp only [matchEsc] at h
        split at h
        · cases h
          exact Nat.le_succ _
        · split at h
          · have h1 : ((rest2.dropWhile isParamByte).dropWhile isInterByte).length
                ≤ rest2.length := le_trans (hdw _ _) (hdw _ _)
            split at h
            · cases h
            · rename_i f r2 heq
              split at h
              · cases h
                have h3 : (f :: r).length ≤ rest2.length := heq ▸ h1
                exact le_trans (Nat.le_of_lt (Nat.lt_succ_self _))
                  (le_trans h3 (Nat.le_succ _))
              · cases h
          · cases h
    exact Nat.lt_succ_of_le hle
  · exact Nat.lt_succ_self _
  · exact Nat.lt_succ_self _

/-! ## Log Tailer: `VigilServer.monitor_log_files` (main.py lines 64-90)

One polling tick, for a single source (sources are handled independently;
`file_positions` holds the cursor, starting at 0 when absent):
if the log file does not exist, skip; otherwise compare `st_size` with the
stored position; when larger, read from the stored position to the end of
the file, broadcast the (sanitizer-cleaned) new content if non-empty, and
store the new size as the position.  The backing file is modelled as
`Option (List Char)` (`none` = file absent); events `append`/`rewrite`
model an external writer growing or replacing the file between ticks, and
`tick` is one poll of this source.  The emitted delta is the raw text the
tailer extracted (the sanitizer is applied to it before the broadcast, per
the data-flow `read → clean → broadcast`). -/

inductive TailEv where
  | append (s : List Char)
  | rewrite (s : List Char)
  | tick
deriving DecidableEq

def TailEv.isRewrite : TailEv → Bool
  | .rewrite _ => true
  | _ => false

structure TailState where
  file : Option (List Char)
  cursor : Nat
  deltas : List (List Char)
deriving DecidableEq

def tailInit : TailState := ⟨none, 0, []⟩

def tailStep (st : TailState) : TailEv → TailState
  | .append s => { st with file := some (st.file.getD [] ++ s) }
  | .rewrite s => { st with file := some s }
  | .tick =>
    match st.file with
    | none => st
    | some f =>
      if st.cursor < f.length then
        let newContent := f.drop st.cursor
        { st with
          cursor := f.length
          deltas := st.deltas ++ (if newContent.isEmpty then [] else [newContent]) }
      else st

def tailRun (st : TailState) (evs : List TailEv) : TailState :=
  evs.foldl tailStep st

/-- The bytes appended to the backing file over a trace. -/
def appendedBytes : List TailEv → List Char
  | [] => []
  | .append s :: rest => s ++ appendedBytes rest
  | _ :: rest => appendedBytes rest

/-! ## Broadcast Hub: `broadcast_log` (vigil.py lines 60-73, main.py 92-101)

A subscriber is a websocket: `closed` is the flag the source reads to
prune dead connections, `sendOk` tells whether `ws.send_str` would
succeed.  The code: if the set is empty, return at once (no `json.dumps`);
otherwise serialize the message, discard the subscribers already observed
closed, and send to every remaining one concurrently with
`return_exceptions=True` (failures are swallowed, the failing subscriber
is not touched).  `sent` collects the successful deliveries as
`(subscriber id, (source name, text))`. -/

structure WSClient where
  id : Nat
  closed : Bool
  sendOk : Bool
deriving DecidableEq

structure BroadcastResult where
  clients : List WSClient
  sent : List (Nat × (String × String))
  serialized : Bool
deriving DecidableEq

def broadcast_log (clients : List WSClient) (process_name data : String) :
    BroadcastResult :=
  if clients.isEmpty then ⟨clients, [], false⟩
  else
    let remaining := clients.filter (fun ws => !ws.closed)
    if remaining.isEmpty then ⟨remaining, [], true⟩
    else
      ⟨remaining,
       (remaining.filter (fun ws => ws.sendOk)).map
         (fun ws => (ws.id, (process_name, data))),
       true⟩

/-! ## Process Supervisor: `run_process` (vigil.py lines 76-124)

`run_process` spawns the command; on success it stores the handle in
`running_processes[name]`, truncate-creates the log file, then for each
decoded output line writes it to the file and broadcasts it; at EOF it
waits for the exit code, appends the exit marker line to the file and
broadcasts it.  Any exception (spawn failure in particular) is caught and
reported as the single line `"Error running {name}: {e}\n"`, broadcast but
not written to the (never opened) file.  The `finally` block removes
`name` from `running_processes` when present.  The spawn outcome is the
input: either the lines the pipe will deliver plus the exit code, or the
exception message.  `RunningMap` is the `running_processes` dict viewed as
its membership function. -/

def RunningMap : Type := String → Bool

def emptyRunning : RunningMap := fun _ => false

def insertProc (name : String) (m : RunningMap) : RunningMap :=
  fun x => x = name || m x

def deleteProc (name : String) (m : RunningMap) : RunningMap :=
  fun x => if x = name then false else m x

/-- `finally: if name in running_processes: del running_processes[name]` -/
def finallyDelete (name : String) (m : RunningMap) : RunningMap :=
  if m name then deleteProc name m else m

structure SpawnedProc where
  outLines : List String
  exitCode : Int

def exitMsg (rc : Int) : String :=
  "\nProcess exited with code " ++ toString rc ++ "\n"

def errorLine (name e : String) : String :=
  "Error running " ++ name ++ ": " ++ e ++ "\n"

structure RunResult where
  logFile : Option String
  broadcasts : List (String × String)
  procsAfter : RunningMap

def run_process (m : RunningMap) (name : String)
    (spawn : Except String SpawnedProc) : RunResult :=
  match spawn with
  | .error e =>
    { logFile := none
      broadcasts := [(name, errorLine name e)]
      procsAfter := finallyDelete name m }
  | .ok p =>
    { logFile := some (String.join p.outLines ++ exitMsg p.exitCode)
      broadcasts := p.outLines.map (fun l => (name, l)) ++ [(name, exitMsg p.exitCode)]
      procsAfter := finallyDelete name (insertProc name m) }

/-- `main` (vigil.py lines 250-267) starts one `run_process` task per
configured source and gathers them with `return_exceptions=True`; each
task starts and finishes regardless of the others (and `run_process`
swallows its own exceptions anyway). -/
def gather_runs : List (String × Except String SpawnedProc) → List RunResult
  | [] => []
  | c :: rest => run_process emptyRunning c.1 c.2 :: gather_runs rest

/-! ## Shutdown Coordinator: `cleanup_processes` (vigil.py 192-207, main.py 167-180)

For each live process (`returncode is None`) the loop body is

    try: terminate(); wait_for(wait(), timeout=5.0)
    except TimeoutError: kill(); wait()
    except Exception as e: log(e)

An exception raised by `terminate`/`wait_for` other than the timeout is
caught by the `except Exception` arm; but an exception raised *inside the
TimeoutError handler* (by `kill()` or the final `wait()`) has no enclosing
handler and propagates, aborting the whole `for` loop.  A process is
abstracted by: its current `returncode`, whether `terminate()` raises,
whether the graceful wait finishes within the 5s grace period, and whether
the kill/reap path raises. -/

structure ManagedProc where
  returncode : Option Int
  terminateResult : Except String Unit
  gracefulExit : Bool
  killResult : Except String Unit

inductive TdAction where
  | skipped
  | terminated
  | killed
  | logged (e : String)
deriving DecidableEq

/-- One iteration of the cleanup loop body; `Except.error` means an
exception escaped the loop body (only possible from the kill path). -/
def cleanupOne (p : ManagedProc) : Except String TdAction :=
  if p.returncode.isSome then .ok .skipped
  else
    match p.terminateResult with
    | .error e => .ok (.logged e)
    | .ok _ =>
      if p.gracefulExit then .ok .terminated
      else
        match p.killResult with
        | .error e => .error e
        | .ok _ => .ok .killed

def cleanup_processes : List ManagedProc → Except String (List TdAction)
  | [] => .ok []
  | p :: rest =>
    match cleanupOne p with
    | .error e => .error e
    | .ok a =>
      match cleanup_processes rest with
      | .error e => .error e
      | .ok as => .ok (a :: as)

/-- The per-process outcome when no exception escapes the loop body. -/
def teardownAct (p : ManagedProc) : TdAction :=
  if p.returncode.isSome then .skipped
  else
    match p.terminateResult with
    | .error e => .logged e
    | .ok _ => if p.gracefulExit then .terminated else .killed

/-! ## History endpoint: `VigilServer.log_handler` (main.py lines 148-165)

`log_name.replace('.log', '')` removes every occurrence of `".log"`, left
to right and non-overlapping; if the resulting name equals the `name` of a
registered source, the file served is that source's configured `logFile`,
otherwise it is `log_dir / log_name`; a missing file is served as the
empty string.  `processes` is the registry as `(name, logFile)` pairs and
`files` maps a file name inside the log directory to its contents. -/

def replaceDotLog : List Char → List Char
  | '.' :: 'l' :: 'o' :: 'g' :: rest => replaceDotLog rest
  | c :: rest => c :: replaceDotLog rest
  | [] => []

def stripDotLog (s : String) : String := String.mk (replaceDotLog s.toList)

def log_handler (processes : List (String × String))
    (files : String → Option String) (log_name : String) : String :=
  let process_name := stripDotLog log_name
  match processes.find? (fun p => p.1 = process_name) with
  | some p => (files p.2).getD ""
  | none => (files log_name).getD ""

/-! ## Concrete inputs used by counterexamples and witnesses -/

/-- `"\x1B\x1B[mA"`: removing the CSI sequence `"\x1B[m"` glues the first
escape character to `'A'`, forming a fresh match for the second pass. -/
def nestedEsc : List Char := [escChar, escChar, '[', 'm', 'A']

def filesExample : String → Option String :=
  fun s => if s = "api.log" then some "AAA"
    else if s = "other.log" then some "BBB" else none

def procKillRaises : ManagedProc :=
  { returncode := none
    terminateResult := .ok ()
    gracefulExit := false
    killResult := .error "kill raised" }

def procGraceful : ManagedProc :=
  { returncode := none
    terminateResult := .ok ()
    gracefulExit := true
    killResult := .ok () }

/-! # Theorems -/

/-! ## Sanitizer lemmas -/

theorem clean_nil : clean_ansi_codes [] = [] := by
  simp [clean_ansi_codes]

theorem clean_esc_match {rest r : List Char} (h : matchEsc rest = some r) :
    clean_ansi_codes (escChar :: rest) = clean_ansi_codes r := by
  rw [clean_ansi_codes, if_pos rfl]
  split
  · rename_i r2 heq
    rw [h] at heq
    cases heq
    rfl
  · rename_i heq
    rw [h] at heq
    exact Option.noConfusion heq

theorem clean_esc_nomatch {rest : List Char} (h : matchEsc rest = none) :
    clean_ansi_codes (escChar :: rest) = escChar :: clean_ansi_codes rest := by
  rw [clean_ansi_codes, if_pos rfl]
  split
  · rename_i r2 heq
    rw [h] at heq
    exact Option.noConfusion heq
  · rfl

theorem clean_other {c : Char} (rest : List Char) (h : ¬ c = escChar) :
    clean_ansi_codes (c :: rest) = c :: clean_ansi_codes rest := by
  rw [clean_ansi_codes]
  simp [h]

/-- A string without the escape character is left untouched by the
sanitizer, since every pattern match starts at an escape character. -/
theorem clean_of_no_esc {l : List Char} (h : ∀ c ∈ l, c ≠ escChar) :
    clean_ansi_codes l = l := by
  induction l with
  | nil => exact clean_nil
  | cons c rest ih =>
    rw [clean_other rest (h c (List.mem_cons_self c rest))]
    rw [ih (fun d hd => h d (List.mem_cons_of_mem c hd))]

/-! ## Tailer lemmas -/

/-- Invariant preserved by every append-or-tick step, together with the
evolution of the file contents: the deltas emitted so far are exactly the
prefix of the file up to the cursor, and the cursor never passes the end
of the file. -/
theorem tail_inv (evs : List TailEv) : ∀ st : TailState,
    (∀ e ∈ evs, e.isRewrite = false) →
    st.deltas.flatten = (st.file.getD []).take st.cursor →
    st.cursor ≤ (st.file.getD []).length →
    ((tailRun st evs).deltas.flatten
        = ((tailRun st evs).file.getD []).take (tailRun st evs).cursor)
    ∧ ((tailRun st evs).cursor ≤ ((tailRun st evs).file.getD []).length)
    ∧ ((tailRun st evs).file.getD [] = st.file.getD [] ++ appendedBytes evs) := by
  induction evs with
  | nil =>
    intro st _ h1 h2
    exact ⟨h1, h2, by simp [tailRun, appendedBytes]⟩
  | cons e evs ih =>
    intro st hr h1 h2
    have hr1 : e.isRewrite = false := hr e (List.mem_cons_self e evs)
    have hrs : ∀ x ∈ evs, x.isRewrite = false :=
      fun x hx => hr x (List.mem_cons_of_mem e hx)
    have hrun : tailRun st (e :: evs) = tailRun (tailStep st e) evs := rfl
    cases e with
    | rewrite s => simp [TailEv.isRewrite] at hr1
    | append s =>
      have hfile : (tailStep st (TailEv.append s)).file.getD []
          = st.file.getD [] ++ s := by simp [tailStep]
      have hcur : (tailStep st (TailEv.append s)).cursor = st.cursor := rfl
      have hdel : (tailStep st (TailEv.append s)).deltas = st.deltas := rfl
      have h1s : (tailStep st (TailEv.append s)).deltas.flatten
          = ((tailStep st (TailEv.append s)).file.getD []).take
              (tailStep st (TailEv.append s)).cursor := by
        rw [hdel, hcur, hfile, List.take_append_of_le_length h2, h1]
      have h2s : (tailStep st (TailEv.append s)).cursor
          ≤ ((tailStep st (TailEv.append s)).file.getD []).length := by
        rw [hcur, hfile]
        simp only [List.length_append]
        omega
      obtain ⟨g1, g2, g3⟩ := ih (tailStep st (TailEv.append s)) hrs h1s h2s
      refine ⟨by rw [hrun]; exact g1, by rw [hrun]; exact g2, ?_⟩
      have ha : appendedBytes (TailEv.append s :: evs) = s ++ appendedBytes evs := rfl
      rw [hrun, g3, hfile, ha, List.append_assoc]
    | tick =>
      have hkeep : (tailStep st TailEv.tick).deltas.flatten
            = ((tailStep st TailEv.tick).file.getD []).take (tailStep st TailEv.tick).cursor
          ∧ (tailStep st TailEv.tick).cursor
            ≤ ((tailStep st TailEv.tick).file.getD []).length
          ∧ (tailStep st TailEv.tick).file.getD [] = st.file.getD [] := by
        cases hfl : st.file with
        | none =>
          have h2n : st.cursor = 0 := by
            have h2x := h2
            rw [hfl] at h2x
            simpa using h2x
          simp [tailStep, hfl, hfl ▸ h1, h2n]
        | some f =>
          simp only [tailStep, hfl]
          by_cases hlt : st.cursor < f.length
          · rw [if_pos hlt]
            have hne : (f.drop st.cursor).isEmpty = false := by
              rw [Bool.eq_false_iff]
              intro hcon
              rw [List.isEmpty_iff, List.drop_eq_nil_iff] at hcon
              omega
            refine ⟨?_, by simp, by simp⟩
            simp only [hne, Bool.false_eq_true, if_false, List.flatten_append,
              List.flatten_cons, List.flatten_nil, List.append_nil, Option.getD_some]
            rw [hfl] at h1
            simp only [Option.getD_some] at h1
            rw [h1, List.take_length, List.take_append_drop]
          · rw [if_neg hlt]
            exact ⟨hfl ▸ h1, hfl ▸ h2, by simp [hfl]⟩
      obtain ⟨k1, k2, k3⟩ := hkeep
      obtain ⟨g1, g2, g3⟩ := ih (tailStep st TailEv.tick) hrs k1 k2
      refine ⟨by rw [hrun]; exact g1, by rw [hrun]; exact g2, ?_⟩
      have ha : appendedBytes (TailEv.tick :: evs) = appendedBytes evs := rfl
      rw [hrun, g3, k3, ha]

/-! ## Claim theorems -/

/-- C1: for every sequence of appends to a source's backing file with no
truncation, the deltas the tailer emits concatenate to exactly the bytes
appended (no byte lost, none duplicated): after a final poll, the flattened
delta list equals the concatenation of all appends.  And concretely
(scenario A): three ticks on an absent file emit nothing; once the file
appears containing "hello\n", the next tick emits exactly one delta with
that text, the cursor becomes 6, and the sanitizer leaves the text
unchanged. -/
theorem monitor_log_files_no_loss :
    (∀ evs : List TailEv, (∀ e ∈ evs, e.isRewrite = false) →
      (tailRun tailInit (evs ++ [TailEv.tick])).deltas.flatten = appendedBytes evs)
    ∧ (tailRun tailInit [TailEv.tick, TailEv.tick, TailEv.tick,
          TailEv.append ("hello\n".toList), TailEv.tick]).deltas = ["hello\n".toList]
    ∧ (tailRun tailInit [TailEv.tick, TailEv.tick, TailEv.tick,
          TailEv.append ("hello\n".toList), TailEv.tick]).cursor = 6
    ∧ clean_ansi_codes ("hello\n".toList) = "hello\n".toList := by
  refine ⟨?_, by decide, by decide, clean_of_no_esc (by decide)⟩
  intro evs hr
  obtain ⟨h1, h2, h3⟩ := tail_inv evs tailInit hr (by simp [tailInit]) (by simp [tailInit])
  have hrw : tailRun tailInit (evs ++ [TailEv.tick])
      = tailStep (tailRun tailInit evs) TailEv.tick := by
    simp [tailRun, List.foldl_append]
  set st1 := tailRun tailInit evs with hst1
  have hfc : st1.file.getD [] = appendedBytes evs := by
    simpa [tailInit] using h3
  rw [hrw]
  cases hfl : st1.file with
  | none =>
    have : appendedBytes evs = [] := by rw [← hfc, hfl]; rfl
    rw [this]
    simp only [tailStep, hfl]
    rw [h1, hfl]
    simp
  | some f =>
    have hf : f = appendedBytes evs := by rw [← hfc, hfl]; rfl
    simp only [tailStep, hfl]
    by_cases hlt : st1.cursor < f.length
    · rw [if_pos hlt]
      have hne : (f.drop st1.cursor).isEmpty = false := by
        rw [Bool.eq_false_iff]
        intro hcon
        rw [List.isEmpty_iff, List.drop_eq_nil_iff] at hcon
        omega
      simp only [hne, Bool.false_eq_true, if_false, List.flatten_append,
        List.flatten_cons, List.flatten_nil, List.append_nil]
      rw [h1, hfl]
      simp only [Option.getD_some]
      rw [List.take_append_drop, hf]
    · rw [if_neg hlt]
      rw [hfl] at h2
      simp only [Option.getD_some] at h2
      have hcur : st1.cursor = f.length := by omega
      rw [h1, hfl, hcur]
      simp only [Option.getD_some]
      rw [List.take_length, hf]

/-- C1 witness: a concrete trace of two appends with interleaved polls,
closed by a final poll, delivers exactly the appended bytes. -/
theorem monitor_log_files_no_loss_witness :
    (tailRun tailInit ([TailEv.append ("ab".toList), TailEv.tick,
        TailEv.append ("c".toList)] ++ [TailEv.tick])).deltas.flatten
      = appendedBytes [TailEv.append ("ab".toList), TailEv.tick,
          TailEv.append ("c".toList)] :=
  monitor_log_files_no_loss.1 _ (by decide)

/-- C2 counterexample: `clean` is not idempotent.  On
`"\x1B\x1B[mA"` the first pass removes only the CSI sequence `"\x1B[m"`
(the leading escape matches nothing because it is followed by another
escape), leaving `"\x1BA"`; the second pass then removes `"\x1BA"`
entirely, since `'A'` is in the Fe class `[@-Z\\-_]`. -/
theorem clean_ansi_codes_not_idempotent :
    clean_ansi_codes (clean_ansi_codes nestedEsc) ≠ clean_ansi_codes nestedEsc := by
  have h1 : clean_ansi_codes nestedEsc = [escChar, 'A'] := by
    show clean_ansi_codes (escChar :: [escChar, '[', 'm', 'A']) = [escChar, 'A']
    rw [clean_esc_nomatch (show matchEsc [escChar, '[', 'm', 'A'] = none by decide)]
    rw [clean_esc_match (show matchEsc ['[', 'm', 'A'] = some ['A'] by decide)]
    rw [clean_of_no_esc (by decide)]
  have h2 : clean_ansi_codes [escChar, 'A'] = [] := by
    rw [clean_esc_match (show matchEsc ['A'] = some [] by decide)]
    exact clean_nil
  rw [h1, h2]
  decide

/-- C2 (amended): `clean` is a total pure function that never fails — a
truncated escape sequence at the end of a chunk (`"hi\x1B"`) falls into
the no-match branch and is left as literal text (second conjunct) — and it
is idempotent whenever its output contains no residual escape character;
idempotence fails in general (`clean_ansi_codes_not_idempotent`). -/
theorem clean_ansi_codes_amended (x : List Char)
    (h : escChar ∉ clean_ansi_codes x) :
    clean_ansi_codes (clean_ansi_codes x) = clean_ansi_codes x
    ∧ clean_ansi_codes ['h', 'i', escChar] = ['h', 'i', escChar] := by
  refine ⟨clean_of_no_esc (fun c hc hce => h (hce ▸ hc)), ?_⟩
  rw [clean_other ['i', escChar] (by decide)]
  rw [clean_other [escChar] (by decide)]
  rw [clean_esc_nomatch (show matchEsc [] = none by decide)]
  rw [clean_nil]

/-- C2 witness: on `"\x1B[mh"` the first pass removes the escape sequence
and leaves the escape-free `"h"`, so the second pass changes nothing. -/
theorem clean_ansi_codes_amended_witness :
    clean_ansi_codes (clean_ansi_codes [escChar, '[', 'm', 'h'])
      = clean_ansi_codes [escChar, '[', 'm', 'h']
    ∧ clean_ansi_codes ['h', 'i', escChar] = ['h', 'i', escChar] := by
  have hval : clean_ansi_codes [escChar, '[', 'm', 'h'] = ['h'] := by
    rw [clean_esc_match (show matchEsc ['[', 'm', 'h'] = some ['h'] by decide)]
    rw [clean_of_no_esc (by decide)]
  exact clean_ansi_codes_amended [escChar, '[', 'm', 'h'] (by rw [hval]; decide)

/-- C3 counterexample: after `"hello\n"` is read (cursor 6) the file is
rewritten to `"hi"` (size 2, smaller than the stored cursor); the next
tick neither resets the cursor to 0 nor re-reads the file from the start —
the cursor stays at 6 and no new delta is produced, refuting the claimed
truncation recovery. -/
theorem monitor_log_files_no_truncation_reset :
    (tailRun tailInit [TailEv.append ("hello\n".toList), TailEv.tick,
        TailEv.rewrite ("hi".toList), TailEv.tick]).cursor = 6
    ∧ ¬ (tailRun tailInit [TailEv.append ("hello\n".toList), TailEv.tick,
        TailEv.rewrite ("hi".toList), TailEv.tick]).cursor = 0
    ∧ (tailRun tailInit [TailEv.append ("hello\n".toList), TailEv.tick,
        TailEv.rewrite ("hi".toList), TailEv.tick]).deltas
      = ["hello\n".toList] := by
  refine ⟨by decide, by decide, by decide⟩

/-- C3 (amended): whenever the observed file size is not larger than the
stored cursor — in particular when the file shrank below it — the tick
does nothing at all for that source: the cursor keeps its old value (it is
never reset to 0), nothing is read and no delta is emitted; the code has
no truncation recovery. -/
theorem monitor_log_files_shrink_noop (st : TailState) (f : List Char)
    (hf : st.file = some f) (hle : f.length ≤ st.cursor) :
    tailStep st TailEv.tick = st := by
  simp only [tailStep, hf]
  rw [if_neg (by omega)]

/-- C3 witness: with stored cursor 6 and a file holding only `"hi"`, the
tick leaves the state — cursor included — unchanged. -/
theorem monitor_log_files_shrink_noop_witness :
    tailStep ⟨some ("hi".toList), 6, ["hello\n".toList]⟩ TailEv.tick
      = ⟨some ("hi".toList), 6, ["hello\n".toList]⟩ :=
  monitor_log_files_shrink_noop _ ("hi".toList) rfl (by decide)

/-! ## Broadcast Hub lemmas -/

/-- When every subscriber is open and its send succeeds, exactly one
delivery per subscriber happens, each carrying the published message. -/
theorem broadcast_sent_of_all_ok (clients : List WSClient) (name data : String)
    (h : ∀ ws ∈ clients, ws.closed = false ∧ ws.sendOk = true) :
    (broadcast_log clients name data).sent
      = clients.map (fun ws => (ws.id, (name, data))) := by
  by_cases hc : clients.isEmpty
  · rw [List.isEmpty_iff] at hc
    subst hc
    rfl
  · have hfil : clients.filter (fun ws => !ws.closed) = clients :=
      List.filter_eq_self.mpr (fun a ha => by simp [(h a ha).1])
    have hfil2 : clients.filter (fun ws => ws.sendOk) = clients :=
      List.filter_eq_self.mpr (fun a ha => (h a ha).2)
    simp only [broadcast_log, hc, if_false, hfil, hfil2, Bool.false_eq_true]

/-- C4: with `N` registered subscribers, all open with working transports,
publishing one delta yields exactly `N` deliveries, each equal to the
published delta (same source name and text); if one subscriber is
unregistered (discarded from the set) before the publish, exactly `N-1`
deliveries occur — and the embedding of `broadcast_log` is a total
function, so no error is raised. -/
theorem broadcast_log_n_deliveries (clients : List WSClient) (name data : String)
    (h : ∀ ws ∈ clients, ws.closed = false ∧ ws.sendOk = true) :
    ((broadcast_log clients name data).sent.length = clients.length
      ∧ ∀ d ∈ (broadcast_log clients name data).sent, d.2 = (name, data))
    ∧ ∀ ws ∈ clients,
        (broadcast_log (clients.erase ws) name data).sent.length
          = clients.length - 1 := by
  refine ⟨⟨?_, ?_⟩, ?_⟩
  · rw [broadcast_sent_of_all_ok clients name data h]
    exact List.length_map clients _
  · rw [broadcast_sent_of_all_ok clients name data h]
    intro d hd
    obtain ⟨ws, _, rfl⟩ := List.mem_map.mp hd
    rfl
  · intro ws hws
    have herased : ∀ w ∈ clients.erase ws, w.closed = false ∧ w.sendOk = true :=
      fun w hw => h w (List.mem_of_mem_erase hw)
    rw [broadcast_sent_of_all_ok (clients.erase ws) name data herased]
    rw [List.length_map, List.length_erase_of_mem hws]

/-- C4 witness: two open subscribers receive exactly two copies of the
delta; after one of the two is unregistered, exactly one is delivered. -/
theorem broadcast_log_n_deliveries_witness :
    (broadcast_log [⟨0, false, true⟩, ⟨1, false, true⟩] "api" "hi").sent.length = 2
    ∧ (broadcast_log ([⟨0, false, true⟩, ⟨1, false, true⟩].erase
        ⟨0, false, true⟩) "api" "hi").sent.length = 1 := by
  have hth := broadcast_log_n_deliveries [⟨0, false, true⟩, ⟨1, false, true⟩]
    "api" "hi" (by decide)
  exact ⟨hth.1.1, hth.2 ⟨0, false, true⟩ (by decide)⟩

/-- C7 counterexample: subscriber 0 is open but its send fails; after the
publish it is still a member of the live subscriber set (only subscribers
already observed closed are pruned), even though delivery to subscriber 1
happened — refuting "the failing subscriber is removed from the live
subscriber set". -/
theorem broadcast_log_failing_not_removed :
    (⟨0, false, false⟩ : WSClient)
        ∈ (broadcast_log [⟨0, false, false⟩, ⟨1, false, true⟩] "api" "x").clients
    ∧ (broadcast_log [⟨0, false, false⟩, ⟨1, false, true⟩] "api" "x").sent
      = [(1, ("api", "x"))] := by
  refine ⟨by decide, by decide⟩

/-- C7 (amended): publishing with zero subscribers is a no-op that incurs
no serialization and raises nothing; when a send to one open subscriber
fails, every other open subscriber with a working transport is still
delivered to and no error is raised, but the failing subscriber is *not*
removed by this publish — it stays in the live set (it is pruned only by a
later publish after it is observed closed, or by its own handler). -/
theorem broadcast_log_amended (clients : List WSClient) (name data : String)
    (ws : WSClient) (hmem : ws ∈ clients) (hopen : ws.closed = false) :
    ((broadcast_log [] name data).serialized = false
      ∧ (broadcast_log [] name data).sent = []
      ∧ (broadcast_log [] name data).clients = [])
    ∧ ws ∈ (broadcast_log clients name data).clients
    ∧ (ws.sendOk = true →
        (ws.id, (name, data)) ∈ (broadcast_log clients name data).sent) := by
  have hne : clients.isEmpty = false := by
    rw [Bool.eq_false_iff]
    intro hcon
    rw [List.isEmpty_iff] at hcon
    subst hcon
    exact absurd hmem (List.not_mem_nil ws)
  have hmem2 : ws ∈ clients.filter (fun w => !w.closed) :=
    List.mem_filter.mpr ⟨hmem, by simp [hopen]⟩
  have hne2 : (clients.filter (fun w => !w.closed)).isEmpty = false := by
    rw [Bool.eq_false_iff]
    intro hcon
    rw [List.isEmpty_iff] at hcon
    rw [hcon] at hmem2
    exact absurd hmem2 (List.not_mem_nil ws)
  refine ⟨⟨rfl, rfl, rfl⟩, ?_, ?_⟩
  · simp only [broadcast_log, hne, Bool.false_eq_true, if_false]
    rw [if_neg (by simp [hne2])]
    exact hmem2
  · intro hok
    simp only [broadcast_log, hne, Bool.false_eq_true, if_false]
    rw [if_neg (by simp [hne2])]
    exact List.mem_map.mpr ⟨ws, List.mem_filter.mpr ⟨hmem2, hok⟩, rfl⟩

/-- C7 witness: with one failing and one working open subscriber, the
empty-set publish is a silent no-op and the working subscriber is still
delivered to while remaining registered. -/
theorem broadcast_log_amended_witness :
    ((broadcast_log [] "api" "x").serialized = false
      ∧ (broadcast_log [] "api" "x").sent = []
      ∧ (broadcast_log [] "api" "x").clients = [])
    ∧ (⟨1, false, true⟩ : WSClient)
        ∈ (broadcast_log [⟨0, false, false⟩, ⟨1, false, true⟩] "api" "x").clients
    ∧ ((⟨1, false, true⟩ : WSClient).sendOk = true →
        (1, ("api", "x"))
          ∈ (broadcast_log [⟨0, false, false⟩, ⟨1, false, true⟩] "api" "x").sent) :=
  broadcast_log_amended [⟨0, false, false⟩, ⟨1, false, true⟩] "api" "x"
    ⟨1, false, true⟩ (by decide) rfl

/-! ## Process Supervisor theorems -/

/-- C5: when a managed source's process exits naturally, the log file
holds the captured stdout followed by the terminal marker line with the
exit code, the broadcasts are the output lines followed by exactly one
delta carrying the marker line, and the source is removed from the live
process map; concretely, for exit code 2 the marker line is
`"\nProcess exited with code 2\n"`. -/
theorem run_process_exit_marker :
    (∀ (m : RunningMap) (name : String) (lines : List String) (rc : Int),
      (run_process m name (Except.ok ⟨lines, rc⟩)).logFile
          = some (String.join lines ++ exitMsg rc)
      ∧ (run_process m name (Except.ok ⟨lines, rc⟩)).broadcasts
          = lines.map (fun l => (name, l)) ++ [(name, exitMsg rc)]
      ∧ (run_process m name (Except.ok ⟨lines, rc⟩)).procsAfter name = false)
    ∧ exitMsg 2 = "\nProcess exited with code 2\n" := by
  refine ⟨?_, rfl⟩
  intro m name lines rc
  refine ⟨rfl, rfl, ?_⟩
  simp [run_process, finallyDelete, insertProc, deleteProc]

/-- C8: when spawning a managed source fails, exactly one synthetic line
`"Error running {name}: {detail}\n"` is broadcast for that source and no
log file is produced; and the failure is local — in the gathered runs of
all configured sources, every other source's run result is exactly what it
would be on its own. -/
theorem run_process_spawn_failure :
    (∀ (m : RunningMap) (name e : String),
      (run_process m name (Except.error e)).broadcasts = [(name, errorLine name e)]
      ∧ (run_process m name (Except.error e)).logFile = none)
    ∧ (∀ (pre post : List (String × Except String SpawnedProc)) (name e : String),
      gather_runs (pre ++ (name, Except.error e) :: post)
        = gather_runs pre
            ++ run_process emptyRunning name (Except.error e) :: gather_runs post) := by
  constructor
  · intro m name e
    exact ⟨rfl, rfl⟩
  · intro pre post name e
    induction pre with
    | nil => rfl
    | cons c rest ih =>
      simp only [List.cons_append, gather_runs, ih, List.append_eq]

/-- C10: whatever the spawn outcome — lines plus natural exit, or an
exception — after `run_process` finishes its `finally` block the source's
name is absent from `running_processes`; the removal is guarded by a
membership test, so it is total even when spawn failure meant no entry was
ever inserted. -/
theorem run_process_name_removed (m : RunningMap) (name : String)
    (spawn : Except String SpawnedProc) :
    (run_process m name spawn).procsAfter name = false := by
  cases spawn with
  | error e =>
    simp only [run_process, finallyDelete]
    by_cases hm : m name
    · simp [hm, deleteProc]
    · simp [hm]
  | ok p =>
    simp [run_process, finallyDelete, insertProc, deleteProc]

/-! ## Shutdown Coordinator theorems -/

/-- Under the assumption that no force-kill raises, the cleanup loop
processes each process independently. -/
theorem cleanup_eq_map : ∀ ps : List ManagedProc,
    (∀ p ∈ ps, p.killResult = Except.ok ()) →
    cleanup_processes ps = Except.ok (ps.map teardownAct) := by
  intro ps
  induction ps with
  | nil => intro _; rfl
  | cons p rest ih =>
    intro h
    have h1 : cleanupOne p = Except.ok (teardownAct p) := by
      unfold cleanupOne teardownAct
      by_cases hrc : p.returncode.isSome
      · simp [hrc]
      · simp only [hrc, Bool.false_eq_true, if_false]
        cases htr : p.terminateResult with
        | error e => rfl
        | ok u =>
          by_cases hg : p.gracefulExit
          · simp [hg]
          · simp [hg, h p (List.mem_cons_self p rest)]
    have h2 := ih (fun q hq => h q (List.mem_cons_of_mem p hq))
    simp only [cleanup_processes, h1, h2, List.map_cons]

/-- C6 counterexample: the first process is live, receives the terminate
request, fails to exit within the grace period, and its force-kill raises;
the exception escapes the `except TimeoutError` handler (the sibling
`except Exception` does not cover it), so `cleanup_processes` aborts with
the error and the second live process is never terminated — refuting "an
unexpected error during one process's teardown does not prevent the
coordinator from proceeding to the next process". -/
theorem cleanup_processes_kill_error_aborts :
    cleanup_processes [procKillRaises, procGraceful] = Except.error "kill raised" := rfl

/-- C6 (amended): on shutdown every live managed process is sent the
graceful terminate request, awaited up to the 5-second grace period, and
force-killed if it did not exit in time; an error raised by the
terminate/graceful-wait step is logged and does not prevent proceeding to
the next process — but this holds only provided no force-kill raises: an
error on the kill path propagates and aborts the remaining teardown
(`cleanup_processes_kill_error_aborts`). -/
theorem cleanup_processes_amended (ps : List ManagedProc)
    (h : ∀ p ∈ ps, p.killResult = Except.ok ()) :
    cleanup_processes ps = Except.ok (ps.map teardownAct)
    ∧ (∀ p ∈ ps, p.returncode = none → p.terminateResult = Except.ok () →
        p.gracefulExit = false → teardownAct p = TdAction.killed)
    ∧ (∀ p ∈ ps, p.returncode = none → ∀ e, p.terminateResult = Except.error e →
        teardownAct p = TdAction.logged e) := by
  refine ⟨cleanup_eq_map ps h, ?_, ?_⟩
  · intro p _ h1 h2 h3
    unfold teardownAct
    simp [h1, h2, h3]
  · intro p _ h1 e h2
    unfold teardownAct
    simp [h1, h2]

/-- C6 witness: a live process whose terminate raises is logged and the
loop still reaches the second live process, which exits gracefully. -/
theorem cleanup_processes_amended_witness :
    cleanup_processes [⟨none, Except.error "boom", false, Except.ok ()⟩, procGraceful]
      = Except.ok [TdAction.logged "boom", TdAction.terminated] := by
  have hth := cleanup_processes_amended
    [⟨none, Except.error "boom", false, Except.ok ()⟩, procGraceful]
    (by
      intro p hp
      fin_cases hp <;> rfl)
  rw [hth.1]
  rfl

/-! ## History endpoint theorems -/

/-- C9 counterexample: source `api` is registered with `logFile`
`"other.log"`; requesting history for `"api.log"` strips to `"api"`, which
matches the source, so the handler serves `other.log`'s contents (`"BBB"`)
— not the contents (`"AAA"`) of the existing file `log_dir/api.log`, which
is thereby unreachable by its own name, refuting "serves the full current
contents of the file at log_dir/log_name". -/
theorem log_handler_redirects :
    log_handler [("api", "other.log")] filesExample "api.log" = "BBB"
    ∧ filesExample "api.log" = some "AAA"
    ∧ ("BBB" : String) ≠ "AAA" := by
  refine ⟨by decide, rfl, by decide⟩

/-- C9 (amended): when the stripped name (every occurrence of `".log"`
removed — not only a suffix) matches no registered source, the handler
serves the full current contents of the file at `log_dir/log_name`, and
returns empty text exactly when that file does not exist; when the
stripped name does match a source, the handler instead serves that
source's configured `logFile` path, which may denote a different file. -/
theorem log_handler_amended (processes : List (String × String))
    (files : String → Option String) (log_name : String)
    (h : processes.find? (fun p => p.1 = stripDotLog log_name) = none) :
    (log_handler processes files log_name = (files log_name).getD ""
      ∧ (files log_name = none → log_handler processes files log_name = ""))
    ∧ ∀ cfg, processes.find? (fun p => p.1 = stripDotLog log_name) = some cfg →
        log_handler processes files log_name = (files cfg.2).getD "" := by
  refine ⟨⟨?_, ?_⟩, ?_⟩
  · simp only [log_handler, h]
  · intro hn
    simp only [log_handler, h, hn, Option.getD_none]
  · intro cfg hcfg
    rw [h] at hcfg
    exact Option.noConfusion hcfg

/-- C9 witness: a file whose name matches no source (`"notes.txt"`) is
served verbatim, and a missing file yields empty text. -/
theorem log_handler_amended_witness :
    (log_handler [("api", "other.log")] filesExample "other.log"
        = (filesExample "other.log").getD ""
      ∧ log_handler [("api", "other.log")] filesExample "zzz.txt" = "") := by
  have h1 := log_handler_amended [("api", "other.log")] filesExample "other.log"
    (by decide)
  have h2 := log_handler_amended [("api", "other.log")] filesExample "zzz.txt"
    (by decide)
  exact ⟨h1.1.1, h2.1.2 rfl⟩

end Vigil
